import Mathlib

/-!
Shallow embedding of the SwinIR tiled-upscale pipeline
(modules/swinir_model.py) and verification of its specification.

The embedding mirrors the source:
* `hPadFormula` is the padding amount `(dim // window_size + 1) * window_size - dim`
  computed at lines 98-99 of `upscale`.
* `paddedDim` is the spatial size after `torch.cat([img, torch.flip(img, ...)])`
  followed by the crop `[:, :, : h_old + h_pad]` (lines 100-101): the flip can
  supply at most `dim` extra rows, so the result is `min (2*dim) (dim + pad)`.
* `reflectIdx` gives the source row read by the concatenation of the image with
  its spatial flip: row `y < dim` reads itself, row `y ≥ dim` reads `2*dim-1-y`.
* `upscalePrepare` is the normalization (BGR channel reversal, division by 255)
  plus mirror padding performed by `upscale` before calling `inference`.
* `pyRangePos` is Python's `range(0, stop, step)` for a positive step;
  `pyRangeStep` adds Python's behaviour for zero step (ValueError) and
  negative step (empty, since start 0 and stop ≥ 0).
* `inference` follows lines 113-142: clamp the tile to `min(tile, h, w)`,
  assert the clamped tile is a multiple of the window size, build the two
  origin lists `range(0, dim - tile, stride) + [dim - tile]`, accumulate each
  tile's model output into `E` and an all-ones mask into `W`, and divide.
  The opaque model call `model(in_patch)` is abstracted as a function of the
  tile origin (the patch is determined by the origin) and the per-pixel
  buffers are total functions; machine floats are modelled as rationals.
  The source performs `E.div_(W)` with no zero check; division by zero is
  total in `ℚ` (yielding 0) where torch would yield NaN — the embedding keeps
  the essential fact that no error is raised on a zero weight.
* `load_model` / `do_upscale` follow lines 42-61: a missing file (resolved
  filename `None`, or not on disk) makes `load_model` return `None` and
  `do_upscale` return the input image unchanged. File-system and download
  effects are abstracted as explicit parameters.
-/

/-- The opaque per-tile model call: given the tile origin (row, col) it returns
the upscaled patch as a function of (channel, local row, local col). The real
`model(in_patch)` depends only on the patch, which is determined by the origin
and the (fixed) padded image. -/
abbrev Model := Nat → Nat → Nat → Nat → Nat → ℚ

/-- Error outcomes of `inference`: the `assert tile % window_size == 0` at line
117 (AssertionError) and Python's `range` rejecting a zero step (ValueError),
which happens when `tile_overlap == tile`. -/
inductive InfError where
  | assertTileWindow
  | rangeZeroStep
deriving DecidableEq

/-- Python `list(range(0, stop, step))` for a positive `step`:
the values `k * step` for `k < ⌈stop / step⌉`. -/
def pyRangePos (stop step : Nat) : List Nat :=
  (List.range ((stop + step - 1) / step)).map (fun k => k * step)

/-- Python `list(range(0, stop, step))` with `stop : Nat`: a zero step raises
ValueError; a negative step yields the empty list; a positive step yields
`pyRangePos`. -/
def pyRangeStep (stop : Nat) (step : Int) : Except InfError (List Nat) :=
  if step = 0 then .error .rangeZeroStep
  else if step < 0 then .ok []
  else .ok (pyRangePos stop step.toNat)

/-- The clamp `tile = min(tile, h, w)` at line 116. -/
abbrev tileC (tile h w : Nat) : Nat := min tile (min h w)

/-- Position `pos` (in upscaled coordinates) lies under the tile whose origin
(in padded coordinates) is `o`: the accumulation writes the slice
`[o * sf, (o + t) * sf)` on this axis (lines 133-138). -/
abbrev coversQ (t sf o pos : Nat) : Prop := o * sf ≤ pos ∧ pos < (o + t) * sf

/-- The accumulated output buffer `E`: the nested loops over `h_idx_list` and
`w_idx_list` add `out_patch` into the slice of each tile; entry `(c, y, x)`
is the sum of the model outputs of all tiles covering `(y, x)`. -/
def Ebuf (hIdx wIdx : List Nat) (m : Model) (t sf : Nat) (c y x : Nat) : ℚ :=
  (hIdx.map (fun hi =>
    (wIdx.map (fun wi =>
      if coversQ t sf hi y ∧ coversQ t sf wi x then
        m hi wi c (y - hi * sf) (x - wi * sf)
      else 0)).sum)).sum

/-- The accumulated weight buffer `W`: the same nested loops add an all-ones
mask; entry `(y, x)` counts the tiles covering `(y, x)`. -/
def Wbuf (hIdx wIdx : List Nat) (t sf : Nat) (y x : Nat) : ℚ :=
  (hIdx.map (fun hi =>
    (wIdx.map (fun wi =>
      if coversQ t sf hi y ∧ coversQ t sf wi x then (1 : ℚ)
      else 0)).sum)).sum

/-- Result of a successful `inference` run: the clamped tile, the stride, the
two origin lists, the two accumulation buffers and the final `E.div_(W)`. -/
structure InfResult where
  t : Nat
  stride : Int
  hIdx : List Nat
  wIdx : List Nat
  E : Nat → Nat → Nat → ℚ
  Wt : Nat → Nat → ℚ
  output : Nat → Nat → Nat → ℚ

/-- Builds the `InfResult` once the origin lists have been computed:
`h_idx_list = list(range(0, h - tile, stride)) + [h - tile]` and likewise for
`w_idx_list` (lines 121-122), then the accumulation and the final division. -/
def mkInfResult (h w t : Nat) (strideI : Int) (sf : Nat) (hs ws2 : List Nat)
    (m : Model) : InfResult :=
  { t := t
    stride := strideI
    hIdx := hs ++ [h - t]
    wIdx := ws2 ++ [w - t]
    E := fun c y x => Ebuf (hs ++ [h - t]) (ws2 ++ [w - t]) m t sf c y x
    Wt := fun y x => Wbuf (hs ++ [h - t]) (ws2 ++ [w - t]) t sf y x
    output := fun c y x =>
      Ebuf (hs ++ [h - t]) (ws2 ++ [w - t]) m t sf c y x /
        Wbuf (hs ++ [h - t]) (ws2 ++ [w - t]) t sf y x }

/-- The `inference` function (lines 113-142): clamp the tile, assert it is a
multiple of the window size, build both origin lists (Python's `range` raises
on a zero step), accumulate every tile and divide `E` by `W`. -/
def inference (h w tile tileOverlap windowSize sf : Nat) (m : Model) :
    Except InfError InfResult :=
  if tileC tile h w % windowSize = 0 then
    match pyRangeStep (h - tileC tile h w)
            ((tileC tile h w : Int) - (tileOverlap : Int)),
          pyRangeStep (w - tileC tile h w)
            ((tileC tile h w : Int) - (tileOverlap : Int)) with
    | .error e, _ => .error e
    | .ok _, .error e => .error e
    | .ok hs, .ok ws2 =>
        .ok (mkInfResult h w (tileC tile h w)
          ((tileC tile h w : Int) - (tileOverlap : Int)) sf hs ws2 m)
  else .error .assertTileWindow

/-- The padding amount `(dim // window_size + 1) * window_size - dim`
(lines 98-99). -/
def hPadFormula (dim ws : Nat) : Nat := (dim / ws + 1) * ws - dim

/-- The padded spatial size produced by concatenating the image with its flip
(giving `2*dim` rows) and cropping to `dim + pad` (lines 100-101). -/
def paddedDim (dim ws : Nat) : Nat := min (2 * dim) (dim + hPadFormula dim ws)

/-- The source row read at padded row `i` by `torch.cat([img, torch.flip(img)])`:
rows below `n` read themselves, rows at or above `n` read the mirrored row
`2*n - 1 - i`. -/
def reflectIdx (n i : Nat) : Nat := if i < n then i else 2 * n - 1 - i

/-- Output of the preparation phase of `upscale` (lines 91-101): the channel
count (which the source never validates), the padded spatial sizes, and the
normalized mirror-padded tensor. -/
structure PrepResult where
  channels : Nat
  hP : Nat
  wP : Nat
  tensor : Nat → Nat → Nat → ℚ

/-- The preparation phase of `upscale`: `img[:, :, ::-1]` reverses the channel
axis (entry `ch` reads input channel `c - 1 - ch`), `np.moveaxis(..., 2, 0) / 255`
normalizes, and the two cat/flip/crop steps mirror-pad both spatial axes.
No channel-count check appears anywhere in the source. -/
def upscalePrepare (hOld wOld c : Nat) (img : Nat → Nat → Nat → ℚ) (ws : Nat) :
    PrepResult :=
  { channels := c
    hP := paddedDim hOld ws
    wP := paddedDim wOld ws
    tensor := fun ch y x =>
      img (reflectIdx hOld y) (reflectIdx wOld x) (c - 1 - ch) / 255 }

/-- The spatial/channel dimensions of the final image produced by `upscale`:
the inference output (padded size times `scale`) is cropped by
`output[..., : h_old * scale, : w_old * scale]` (line 103), and the array is
transposed to height × width × channels (lines 105-108). -/
def upscaleOutputDims (hOld wOld c ws scale : Nat) : Nat × Nat × Nat :=
  (min (paddedDim hOld ws * scale) (hOld * scale),
   min (paddedDim wOld ws * scale) (wOld * scale), c)

/-- An opaque loaded model, tagged by the file it came from (line 62-77 build
the network and load the checkpoint; the contents are irrelevant here). -/
inductive LoadedModel (F : Type) where
  | fromFile (f : F)

/-- The filename resolution in `load_model` (lines 55-59): an http path goes
through `load_file_from_url` (abstracted as `download`), otherwise the path
itself is the filename. -/
def resolveFilename {F : Type} (isHttp : Bool) (download : Option F) (path : F) :
    Option F :=
  if isHttp then download else some path

/-- `load_model` (lines 54-80): returns `None` when the resolved filename is
`None` or does not exist on disk (line 60-61), otherwise the loaded model.
The file system is abstracted as the predicate `fileExists`. -/
def load_model {F : Type} (fileExists : F → Bool) (isHttp : Bool)
    (download : Option F) (path : F) : Option (LoadedModel F) :=
  match resolveFilename isHttp download path with
  | none => none
  | some f => if fileExists f then some (.fromFile f) else none

/-- `do_upscale` (lines 42-52): when `load_model` returns `None` the input
image is returned unchanged; otherwise the full upscale runs (abstracted as
`runUpscale`). -/
def do_upscale {α F : Type} (runUpscale : α → LoadedModel F → α)
    (fileExists : F → Bool) (isHttp : Bool) (download : Option F) (path : F)
    (img : α) : α :=
  match load_model fileExists isHttp download path with
  | none => img
  | some model => runUpscale img model

/-- A trivially concrete model, used to instantiate witnesses. -/
def m0 : Model := fun _ _ _ _ _ => 0

/-- A trivially concrete input image, used to instantiate witnesses. -/
def img0 : Nat → Nat → Nat → ℚ := fun _ _ _ => 0

/-- Spec-side definition, for refinement comparison only: the smallest value
greater than or equal to `dim` that is a multiple of `ws` (the spec's claimed
padded dimension). -/
def smallestMultipleGe (dim ws : Nat) : Nat := ((dim + ws - 1) / ws) * ws

/-- Spec-side definition, for refinement comparison only: the raw model
outputs laid out tile by tile with no blending, as the spec describes the
`overlap = 0` output. Position `(y, x)` belongs to the tile with origin
`(y / (t*sf) * t, x / (t*sf) * t)` at local offset `(y % (t*sf), x % (t*sf))`. -/
def concatTiles (m : Model) (t sf c y x : Nat) : ℚ :=
  m (y / (t * sf) * t) (x / (t * sf) * t) c (y % (t * sf)) (x % (t * sf))

/-- Extractor: did `inference` succeed? -/
def infIsOk (e : Except InfError InfResult) : Bool :=
  match e with
  | .ok _ => true
  | .error _ => false

/-- Extractor: the row origin list of a successful `inference`. -/
def infHList (e : Except InfError InfResult) : Option (List Nat) :=
  match e with
  | .ok r => some r.hIdx
  | .error _ => none

/-- Extractor: the column origin list of a successful `inference`. -/
def infWList (e : Except InfError InfResult) : Option (List Nat) :=
  match e with
  | .ok r => some r.wIdx
  | .error _ => none

/-- Extractor: the stride of a successful `inference`. -/
def infStrideVal (e : Except InfError InfResult) : Option Int :=
  match e with
  | .ok r => some r.stride
  | .error _ => none

/-- Extractor: the number of scheduled tiles of a successful `inference`. -/
def infTiles (e : Except InfError InfResult) : Option Nat :=
  match e with
  | .ok r => some (r.hIdx.length * r.wIdx.length)
  | .error _ => none

/-- Extractor: one entry of the weight buffer of a successful `inference`. -/
def infWeightAt (e : Except InfError InfResult) (y x : Nat) : Option ℚ :=
  match e with
  | .ok r => some (r.Wt y x)
  | .error _ => none

/-! ### Arithmetic helper lemmas -/

lemma lt_div_succ_mul (a b : Nat) (hb : 0 < b) : a < (a / b + 1) * b := by
  have h1 := Nat.div_add_mod a b
  have h2 : a % b < b := Nat.mod_lt a hb
  rw [add_mul, one_mul, Nat.mul_comm (a / b) b]
  set Q := b * (a / b) with hQ
  set R := a % b with hR
  omega

lemma div_eq_of_between {m n k : Nat} (hn : 0 < n) (lo : k * n ≤ m)
    (hi : m < (k + 1) * n) : m / n = k := by
  have h1 : k ≤ m / n := (Nat.le_div_iff_mul_le hn).2 lo
  have h2 : m / n < k + 1 := (Nat.div_lt_iff_lt_mul hn).2 hi
  omega

lemma sub_div_mul_eq_mod (y ts : Nat) : y - y / ts * ts = y % ts := by
  have h1 := Nat.div_add_mod y ts
  rw [Nat.mul_comm ts (y / ts)] at h1
  set Q := y / ts * ts with hQ
  set R := y % ts with hR
  omega

lemma padf_eq (dim ws : Nat) (hws : 0 < ws) :
    hPadFormula dim ws = ws - dim % ws := by
  unfold hPadFormula
  have h1 := Nat.div_add_mod dim ws
  have h2 : dim % ws < ws := Nat.mod_lt dim hws
  rw [add_mul, one_mul, Nat.mul_comm ws (dim / ws)] at *
  set Q := dim / ws * ws with hQ
  set R := dim % ws with hR
  omega

/-! ### List sum helper lemmas -/

lemma sum_map_nonneg {α : Type} (l : List α) (f : α → ℚ)
    (h : ∀ a ∈ l, 0 ≤ f a) : 0 ≤ (l.map f).sum := by
  induction l with
  | nil => simp
  | cons a t ih =>
      simp only [List.map_cons, List.sum_cons]
      exact add_nonneg (h a (by simp)) (ih (fun b hb => h b (by simp [hb])))

lemma sum_map_pos {α : Type} (l : List α) (f : α → ℚ)
    (h0 : ∀ a ∈ l, 0 ≤ f a) (a : α) (ha : a ∈ l) (hpos : 0 < f a) :
    0 < (l.map f).sum := by
  induction l with
  | nil => cases ha
  | cons b t ih =>
      simp only [List.map_cons, List.sum_cons]
      rcases List.mem_cons.1 ha with rfl | hat
      · exact add_pos_of_pos_of_nonneg hpos
          (sum_map_nonneg t f (fun x hx => h0 x (by simp [hx])))
      · exact add_pos_of_nonneg_of_pos (h0 b (by simp))
          (ih (fun x hx => h0 x (by simp [hx])) hat)

lemma sum_map_eq_zero {α : Type} (l : List α) (f : α → ℚ)
    (h : ∀ a ∈ l, f a = 0) : (l.map f).sum = 0 := by
  induction l with
  | nil => simp
  | cons a t ih =>
      simp only [List.map_cons, List.sum_cons]
      rw [h a (by simp), ih (fun b hb => h b (by simp [hb])), add_zero]

lemma sum_map_range_single (n k0 : Nat) (f : Nat → ℚ) (v : ℚ) (hk : k0 < n)
    (hf0 : ∀ k, k < n → k ≠ k0 → f k = 0) (hfv : f k0 = v) :
    ((List.range n).map f).sum = v := by
  induction n with
  | zero => omega
  | succ m ih =>
      rw [List.range_succ, List.map_append, List.sum_append]
      by_cases hm : k0 = m
      · subst hm
        rw [sum_map_eq_zero _ _ (fun a ha =>
          hf0 a (by exact lt_trans (List.mem_range.1 ha) (Nat.lt_succ_self _))
            (Nat.ne_of_lt (List.mem_range.1 ha)))]
        simp [hfv]
      · have hk' : k0 < m := by omega
        rw [ih hk' (fun k hkm hne => hf0 k (by omega) hne)]
        rw [show (List.map f [m]).sum = f m by simp,
          hf0 m (by omega) (fun hc => hm hc.symm)]
        simp

/-! ### Scheduler lemmas -/

lemma mem_pyRangePos_of_lt (stop step k : Nat) (hstep : 0 < step)
    (hk : k * step < stop) : k * step ∈ pyRangePos stop step := by
  unfold pyRangePos
  refine List.mem_map.2 ⟨k, List.mem_range.2 ?_, rfl⟩
  have hmul : (k + 1) * step ≤ stop + step - 1 := by
    rw [add_mul, one_mul]
    set Q := k * step with hQ
    omega
  have := (Nat.le_div_iff_mul_le hstep).2 hmul
  omega

lemma origin_covers (h t stride y : Nat) (hth : t ≤ h) (hs0 : 0 < stride)
    (hst : stride ≤ t) (hy : y < h) :
    ∃ o ∈ pyRangePos (h - t) stride ++ [h - t], o ≤ y ∧ y < o + t := by
  rcases Nat.lt_or_ge y (h - t) with hlt | hge
  · refine ⟨y / stride * stride, ?_, Nat.div_mul_le_self y stride, ?_⟩
    · exact List.mem_append_left _ (mem_pyRangePos_of_lt _ _ _ hs0
        (lt_of_le_of_lt (Nat.div_mul_le_self y stride) hlt))
    · have hlt2 := lt_div_succ_mul y stride hs0
      rw [add_mul, one_mul] at hlt2
      set Q := y / stride * stride with hQ
      omega
  · exact ⟨h - t, List.mem_append_right _ (by simp), hge, by omega⟩

lemma grid_eq (t n : Nat) (ht : 0 < t) (hn : 0 < n) :
    pyRangePos (t * n - t) t ++ [t * n - t] =
      (List.range n).map (fun k => k * t) := by
  obtain ⟨m, rfl⟩ : ∃ m, n = m + 1 := ⟨n - 1, by omega⟩
  have h1 : t * (m + 1) - t = t * m := by
    rw [Nat.mul_succ, Nat.add_sub_cancel]
  rw [h1]
  have h2 : pyRangePos (t * m) t = (List.range m).map (fun k => k * t) := by
    unfold pyRangePos
    have h3 : (t * m + t - 1) / t = m := by
      rw [Nat.add_sub_assoc ht, Nat.add_comm,
        Nat.add_mul_div_left _ _ ht, Nat.div_eq_of_lt (by omega)]
      omega
    rw [h3]
  rw [h2, List.range_succ, List.map_append]
  simp [Nat.mul_comm]

lemma cover_iff_div (t sf k pos : Nat) (ht : 0 < t) (hsf : 0 < sf) :
    coversQ t sf (k * t) pos ↔ pos / (t * sf) = k := by
  have hts : 0 < t * sf := Nat.mul_pos ht hsf
  have e1 : k * t * sf = k * (t * sf) := by ring
  have e2 : (k * t + t) * sf = (k + 1) * (t * sf) := by ring
  constructor
  · rintro ⟨h1, h2⟩
    rw [e1] at h1
    rw [e2] at h2
    exact div_eq_of_between hts h1 h2
  · rintro rfl
    refine ⟨?_, ?_⟩
    · rw [e1]
      exact Nat.div_mul_le_self pos (t * sf)
    · rw [e2]
      exact lt_div_succ_mul pos (t * sf) hts

lemma coversQ_scale (o t sf pos : Nat) (hsf : 0 < sf) (h1 : o ≤ pos / sf)
    (h2 : pos / sf < o + t) : coversQ t sf o pos := by
  refine ⟨?_, (Nat.div_lt_iff_lt_mul hsf).1 h2⟩
  calc o * sf ≤ pos / sf * sf := Nat.mul_le_mul_right sf h1
    _ ≤ pos := Nat.div_mul_le_self pos sf

/-! ### Evaluation lemmas for `pyRangeStep` and `inference` -/

lemma pyRangeStep_pos (stop : Nat) (step : Int) (hpos : 0 < step) :
    pyRangeStep stop step = .ok (pyRangePos stop step.toNat) := by
  unfold pyRangeStep
  rw [if_neg (by omega), if_neg (by omega)]

lemma pyRangeStep_neg (stop : Nat) (step : Int) (hneg : step < 0) :
    pyRangeStep stop step = .ok [] := by
  unfold pyRangeStep
  rw [if_neg (by omega), if_pos hneg]

lemma pyRangeStep_zero (stop : Nat) :
    pyRangeStep stop 0 = .error .rangeZeroStep := by
  unfold pyRangeStep
  rw [if_pos rfl]

lemma inference_eq_ok (h w tile overlap ws sf : Nat) (m : Model)
    (hws : tileC tile h w % ws = 0) (hov : overlap < tileC tile h w) :
    inference h w tile overlap ws sf m =
      .ok (mkInfResult h w (tileC tile h w)
        ((tileC tile h w : Int) - (overlap : Int)) sf
        (pyRangePos (h - tileC tile h w) (tileC tile h w - overlap))
        (pyRangePos (w - tileC tile h w) (tileC tile h w - overlap)) m) := by
  have hpos : (0 : Int) < (tileC tile h w : Int) - (overlap : Int) := by omega
  have htn : ((tileC tile h w : Int) - (overlap : Int)).toNat =
      tileC tile h w - overlap := by omega
  unfold inference
  rw [if_pos hws, pyRangeStep_pos _ _ hpos, pyRangeStep_pos _ _ hpos, htn]

lemma inference_eq_of_neg_stride (h w tile overlap ws sf : Nat) (m : Model)
    (hws : tileC tile h w % ws = 0) (hov : tileC tile h w < overlap) :
    inference h w tile overlap ws sf m =
      .ok (mkInfResult h w (tileC tile h w)
        ((tileC tile h w : Int) - (overlap : Int)) sf [] [] m) := by
  have hneg : (tileC tile h w : Int) - (overlap : Int) < 0 := by omega
  unfold inference
  rw [if_pos hws, pyRangeStep_neg _ _ hneg, pyRangeStep_neg _ _ hneg]

lemma inference_eq_of_zero_stride (h w tile overlap ws sf : Nat) (m : Model)
    (hws : tileC tile h w % ws = 0) (hov : overlap = tileC tile h w) :
    inference h w tile overlap ws sf m = .error .rangeZeroStep := by
  have hz : (tileC tile h w : Int) - (overlap : Int) = 0 := by omega
  unfold inference
  rw [if_pos hws, hz, pyRangeStep_zero, pyRangeStep_zero]

/-! ### Buffer lemmas -/

lemma Wbuf_pos (hIdx wIdx : List Nat) (t sf y x oh ow : Nat)
    (hohmem : oh ∈ hIdx) (hcy : coversQ t sf oh y)
    (howmem : ow ∈ wIdx) (hcx : coversQ t sf ow x) :
    0 < Wbuf hIdx wIdx t sf y x := by
  unfold Wbuf
  apply sum_map_pos _ _ ?h0 oh hohmem ?hpos
  case h0 =>
    intro a _
    apply sum_map_nonneg
    intro b _
    dsimp only
    split <;> norm_num
  case hpos =>
    apply sum_map_pos _ _ ?w0 ow howmem ?wt
    case w0 =>
      intro b _
      dsimp only
      split <;> norm_num
    case wt =>
      rw [if_pos ⟨hcy, hcx⟩]
      norm_num

lemma Wbuf_grid (nh nw tile sf y x : Nat) (ht0 : 0 < tile) (hsf : 0 < sf)
    (hk : y / (tile * sf) < nh) (hj : x / (tile * sf) < nw) :
    Wbuf ((List.range nh).map (fun k => k * tile))
      ((List.range nw).map (fun k => k * tile)) tile sf y x = 1 := by
  unfold Wbuf
  rw [List.map_map]
  apply sum_map_range_single nh (y / (tile * sf)) _ 1 hk
  · intro k hkn hne
    simp only [Function.comp_apply]
    apply sum_map_eq_zero
    intro b hb
    apply if_neg
    rintro ⟨hcy, _⟩
    exact hne ((cover_iff_div tile sf k y ht0 hsf).1 hcy).symm
  · simp only [Function.comp_apply]
    rw [List.map_map]
    apply sum_map_range_single nw (x / (tile * sf)) _ 1 hj
    · intro j hjn hne
      simp only [Function.comp_apply]
      apply if_neg
      rintro ⟨_, hcx⟩
      exact hne ((cover_iff_div tile sf j x ht0 hsf).1 hcx).symm
    · simp only [Function.comp_apply]
      rw [if_pos ⟨(cover_iff_div tile sf _ y ht0 hsf).2 rfl,
        (cover_iff_div tile sf _ x ht0 hsf).2 rfl⟩]

lemma Ebuf_grid (nh nw tile sf c y x : Nat) (m : Model) (ht0 : 0 < tile)
    (hsf : 0 < sf) (hk : y / (tile * sf) < nh) (hj : x / (tile * sf) < nw) :
    Ebuf ((List.range nh).map (fun k => k * tile))
      ((List.range nw).map (fun k => k * tile)) m tile sf c y x =
      m (y / (tile * sf) * tile) (x / (tile * sf) * tile) c
        (y - y / (tile * sf) * tile * sf) (x - x / (tile * sf) * tile * sf) := by
  unfold Ebuf
  rw [List.map_map]
  apply sum_map_range_single nh (y / (tile * sf)) _ _ hk
  · intro k hkn hne
    simp only [Function.comp_apply]
    apply sum_map_eq_zero
    intro b hb
    apply if_neg
    rintro ⟨hcy, _⟩
    exact hne ((cover_iff_div tile sf k y ht0 hsf).1 hcy).symm
  · simp only [Function.comp_apply]
    rw [List.map_map]
    apply sum_map_range_single nw (x / (tile * sf)) _ _ hj
    · intro j hjn hne
      simp only [Function.comp_apply]
      apply if_neg
      rintro ⟨_, hcx⟩
      exact hne ((cover_iff_div tile sf j x ht0 hsf).1 hcx).symm
    · simp only [Function.comp_apply]
      rw [if_pos ⟨(cover_iff_div tile sf _ y ht0 hsf).2 rfl,
        (cover_iff_div tile sf _ x ht0 hsf).2 rfl⟩]

/-! ### Claim theorems -/

/-- C1: for every configuration with the tile clamped to `min(tile, h, w)`,
`0 ≤ overlap < tile` and the clamped tile a multiple of the window size, the
scheduled tile rectangles cover every position of `[0,h) × [0,w)`, and every
entry of the weight buffer `W` is strictly positive before the final divide. -/
theorem c1_full_coverage (h w tile overlap ws sf : Nat) (m : Model)
    (hov : overlap < tileC tile h w) (hws : tileC tile h w % ws = 0)
    (hsf : 0 < sf) :
    ∃ r, inference h w tile overlap ws sf m = .ok r ∧
      (∀ y, y < h → ∀ x, x < w → ∃ oh ∈ r.hIdx, ∃ ow ∈ r.wIdx,
        oh ≤ y ∧ y < oh + r.t ∧ ow ≤ x ∧ x < ow + r.t) ∧
      (∀ y, y < h * sf → ∀ x, x < w * sf → 0 < r.Wt y x) := by
  have hth : tileC tile h w ≤ h :=
    le_trans (Nat.min_le_right _ _) (Nat.min_le_left _ _)
  have htw : tileC tile h w ≤ w :=
    le_trans (Nat.min_le_right _ _) (Nat.min_le_right _ _)
  have hs0 : 0 < tileC tile h w - overlap := by omega
  have hstle : tileC tile h w - overlap ≤ tileC tile h w := by omega
  refine ⟨_, inference_eq_ok h w tile overlap ws sf m hws hov, ?_, ?_⟩
  · intro y hy x hx
    obtain ⟨oh, hohm, hoh1, hoh2⟩ := origin_covers h _ _ y hth hs0 hstle hy
    obtain ⟨ow, howm, how1, how2⟩ := origin_covers w _ _ x htw hs0 hstle hx
    exact ⟨oh, hohm, ow, howm, hoh1, hoh2, how1, how2⟩
  · intro y hy x hx
    have hy2 : y / sf < h := (Nat.div_lt_iff_lt_mul hsf).2 hy
    have hx2 : x / sf < w := (Nat.div_lt_iff_lt_mul hsf).2 hx
    obtain ⟨oh, hohm, hoh1, hoh2⟩ :=
      origin_covers h _ _ (y / sf) hth hs0 hstle hy2
    obtain ⟨ow, howm, how1, how2⟩ :=
      origin_covers w _ _ (x / sf) htw hs0 hstle hx2
    exact Wbuf_pos _ _ _ _ _ _ oh ow hohm (coversQ_scale _ _ _ _ hsf hoh1 hoh2)
      howm (coversQ_scale _ _ _ _ hsf how1 how2)

/-- Witness for C1 at the concrete configuration
`h = w = 16, tile = 8, overlap = 4, window_size = 8, scale = 1`. -/
theorem c1_full_coverage_witness :
    4 < tileC 8 16 16 ∧ tileC 8 16 16 % 8 = 0 ∧ 0 < 1 ∧
      (∃ r, inference 16 16 8 4 8 1 m0 = .ok r ∧
        (∀ y, y < 16 → ∀ x, x < 16 → ∃ oh ∈ r.hIdx, ∃ ow ∈ r.wIdx,
          oh ≤ y ∧ y < oh + r.t ∧ ow ≤ x ∧ x < ow + r.t) ∧
        (∀ y, y < 16 * 1 → ∀ x, x < 16 * 1 → 0 < r.Wt y x)) :=
  ⟨by decide, by decide, by decide,
    c1_full_coverage 16 16 8 4 8 1 m0 (by decide) (by decide) (by decide)⟩

/-- C3: the padding amount `(dim // window_size + 1) * window_size - dim` is
at least 1, and when `dim` is an exact multiple of the window size the padded
dimension is `dim + window_size` (a full extra window). -/
theorem c3_pad_formula (dim ws : Nat) (hws : 0 < ws) :
    1 ≤ hPadFormula dim ws ∧
      (dim % ws = 0 → dim + hPadFormula dim ws = dim + ws) := by
  have h := padf_eq dim ws hws
  have h2 : dim % ws < ws := Nat.mod_lt dim hws
  rw [h]
  set R := dim % ws with hR
  omega

/-- Witness for C3 at `dim = 16, window_size = 8`. -/
theorem c3_pad_formula_witness :
    0 < 8 ∧ 1 ≤ hPadFormula 16 8 ∧
      (16 % 8 = 0 → 16 + hPadFormula 16 8 = 16 + 8) :=
  ⟨by decide, (c3_pad_formula 16 8 (by decide)).1,
    (c3_pad_formula 16 8 (by decide)).2⟩

/-- C7: when the clamped tile size is not a multiple of the window size the
operation fails immediately with the configuration assertion, before the
accumulation buffers are built (the error is returned before the `E`/`W`
construction in the embedding, exactly as the `assert` at line 117 precedes
the `torch.zeros` calls at lines 123-124). -/
theorem c7_tile_window_assert (h w tile overlap ws sf : Nat) (m : Model)
    (hns : tileC tile h w % ws ≠ 0) :
    inference h w tile overlap ws sf m = .error .assertTileWindow := by
  unfold inference
  rw [if_neg hns]

/-- Witness for C7 at the spec's error scenario `tile = 50, window_size = 8`
(padded image 136 × 136). -/
theorem c7_tile_window_assert_witness :
    tileC 50 136 136 % 8 ≠ 0 ∧
      inference 136 136 50 8 8 4 m0 = .error .assertTileWindow :=
  ⟨by decide, c7_tile_window_assert 136 136 50 8 8 4 m0 (by decide)⟩

/-- C10: when the resolved model filename is `None` or the file does not
exist, `load_model` returns `None` and `do_upscale` returns the input image
unchanged (no upscale computation is reached). -/
theorem c10_missing_model {α F : Type} (runUpscale : α → LoadedModel F → α)
    (fileExists : F → Bool) (isHttp : Bool) (download : Option F) (path : F)
    (img : α)
    (hfail : resolveFilename isHttp download path = none ∨
      ∃ f, resolveFilename isHttp download path = some f ∧
        fileExists f = false) :
    load_model fileExists isHttp download path = none ∧
      do_upscale runUpscale fileExists isHttp download path img = img := by
  have hlm : load_model fileExists isHttp download path = none := by
    unfold load_model
    rcases hfail with hnone | ⟨f, hf, hex⟩
    · rw [hnone]
    · rw [hf]
      simp [hex]
  refine ⟨hlm, ?_⟩
  unfold do_upscale
  rw [hlm]

/-- Witness for C10: a non-http path whose file does not exist; `do_upscale`
returns the input image 42 even though the upscale callback would change it. -/
theorem c10_missing_model_witness :
    load_model (F := Nat) (fun _ => false) false (some 5) 7 = none ∧
      do_upscale (fun (i : Nat) (_ : LoadedModel Nat) => i + 1)
        (fun _ => false) false (some 5) 7 42 = 42 :=
  c10_missing_model _ _ _ _ _ _ (Or.inr ⟨7, rfl, rfl⟩)

/-- C4: the spec's concrete scenario. Image 130 × 130 × 3, window size 8,
tile 64, overlap 8, scale 4: padding 6 on each axis (padded 136 × 136),
stride 56, origin lists `[0, 56, 72]` on both axes, 9 scheduled tiles, and
final output dimensions 520 × 520 × 3. -/
theorem c4_concrete_scenario :
    hPadFormula 130 8 = 6 ∧ paddedDim 130 8 = 136 ∧
      infStrideVal (inference 136 136 64 8 8 4 m0) = some 56 ∧
      infHList (inference 136 136 64 8 8 4 m0) = some [0, 56, 72] ∧
      infWList (inference 136 136 64 8 8 4 m0) = some [0, 56, 72] ∧
      infTiles (inference 136 136 64 8 8 4 m0) = some 9 ∧
      upscaleOutputDims 130 130 3 8 4 = (520, 520, 3) := by
  decide

/-- Counterexample to C6: with `h = w = 8`, clamped tile 8 and overlap 9
(overlap greater than the tile size) the code raises no ConfigError at all —
`inference` runs to completion and returns a result. -/
theorem c6_overlap_counterexample :
    infIsOk (inference 8 8 8 9 8 1 m0) = true := by decide

/-- C6 as amended: the source performs no overlap validation. When the
overlap equals the clamped tile size the stride is zero and Python's `range`
raises a ValueError (not a ConfigError); when the overlap exceeds the clamped
tile size the computation silently proceeds, with each origin list collapsed
to the single trailing origin. -/
theorem c6_overlap_amended (h w tile overlap ws sf : Nat) (m : Model)
    (hws : tileC tile h w % ws = 0) (_hov : tileC tile h w ≤ overlap) :
    (overlap = tileC tile h w →
      inference h w tile overlap ws sf m = .error .rangeZeroStep) ∧
    (tileC tile h w < overlap →
      infHList (inference h w tile overlap ws sf m) =
          some [h - tileC tile h w] ∧
        infWList (inference h w tile overlap ws sf m) =
          some [w - tileC tile h w]) := by
  constructor
  · intro he
    exact inference_eq_of_zero_stride h w tile overlap ws sf m hws he
  · intro hlt
    rw [inference_eq_of_neg_stride h w tile overlap ws sf m hws hlt]
    exact ⟨rfl, rfl⟩

/-- Witness for the amended C6 at `h = w = 16, tile = 8, overlap = 9`. -/
theorem c6_overlap_amended_witness :
    tileC 8 16 16 % 8 = 0 ∧ tileC 8 16 16 ≤ 9 ∧
      ((9 = tileC 8 16 16 →
          inference 16 16 8 9 8 1 m0 = .error .rangeZeroStep) ∧
        (tileC 8 16 16 < 9 →
          infHList (inference 16 16 8 9 8 1 m0) = some [16 - tileC 8 16 16] ∧
            infWList (inference 16 16 8 9 8 1 m0) =
              some [16 - tileC 8 16 16])) :=
  ⟨by decide, by decide,
    c6_overlap_amended 16 16 8 9 8 1 m0 (by decide) (by decide)⟩

/-- Counterexample to C8: with `h = w = 16`, tile 8 and overlap 9 the weight
buffer is zero at position (0, 0) after all scheduled tiles, yet `inference`
completes normally — no CoverageError (the source has no such check; the
unchecked `E.div_(W)` would silently produce NaN). -/
theorem c8_zero_weight_counterexample :
    infIsOk (inference 16 16 8 9 8 1 m0) = true ∧
      infWeightAt (inference 16 16 8 9 8 1 m0) 0 0 = some 0 := by
  rw [inference_eq_of_neg_stride 16 16 8 9 8 1 m0 (by decide) (by decide)]
  refine ⟨rfl, ?_⟩
  norm_num [infWeightAt, mkInfResult, Wbuf, coversQ]

/-- C8 as amended: the finalize step divides unconditionally. Whenever the
scheduler leaves a position uncovered (possible exactly when the overlap
exceeds the clamped tile size on a larger image), the weight at that position
is zero and `inference` still returns a result instead of failing with a
CoverageError; the real code would emit NaN there. -/
theorem c8_zero_weight_amended (h w tile overlap ws sf : Nat) (m : Model)
    (hws : tileC tile h w % ws = 0) (hov : tileC tile h w < overlap)
    (hh : tileC tile h w < h) (_hw2 : tileC tile h w < w) (hsf : 0 < sf) :
    infIsOk (inference h w tile overlap ws sf m) = true ∧
      infWeightAt (inference h w tile overlap ws sf m) 0 0 = some 0 := by
  rw [inference_eq_of_neg_stride h w tile overlap ws sf m hws hov]
  refine ⟨rfl, ?_⟩
  have hz : Wbuf ([] ++ [h - tileC tile h w]) ([] ++ [w - tileC tile h w])
      (tileC tile h w) sf 0 0 = 0 := by
    unfold Wbuf
    simp only [List.nil_append, List.map_cons, List.map_nil, List.sum_cons,
      List.sum_nil]
    rw [if_neg]
    · ring
    · rintro ⟨⟨hle, _⟩, _⟩
      have hp : 0 < (h - tileC tile h w) * sf := Nat.mul_pos (by omega) hsf
      omega
  exact congrArg some hz

/-- Witness for the amended C8 at `h = w = 16, tile = 8, overlap = 9`. -/
theorem c8_zero_weight_amended_witness :
    tileC 8 16 16 % 8 = 0 ∧ tileC 8 16 16 < 9 ∧ tileC 8 16 16 < 16 ∧
      tileC 8 16 16 < 16 ∧ 0 < 1 ∧
      (infIsOk (inference 16 16 8 9 8 1 m0) = true ∧
        infWeightAt (inference 16 16 8 9 8 1 m0) 0 0 = some 0) :=
  ⟨by decide, by decide, by decide, by decide, by decide,
    c8_zero_weight_amended 16 16 8 9 8 1 m0 (by decide) (by decide)
      (by decide) (by decide) (by decide)⟩

/-- Counterexample to C9: a 4-channel (e.g. RGBA) input is processed by the
preparation phase with no ShapeError — the channel count flows through
unchanged and the padded tensor is produced normally. -/
theorem c9_channel_counterexample :
    (upscalePrepare 10 10 4 img0 8).channels = 4 ∧
      (upscalePrepare 10 10 4 img0 8).hP = 16 := by decide

/-- C9 as amended: `upscale` performs no channel-count validation. For every
channel count the preparation succeeds with the channel count preserved, and
the pipeline proceeds into `inference` (where the opaque model is invoked);
no ShapeError exists in the source. -/
theorem c9_channel_amended (hOld wOld c ws tile overlap sf : Nat)
    (img : Nat → Nat → Nat → ℚ) (m : Model)
    (hws : tileC tile (paddedDim hOld ws) (paddedDim wOld ws) % ws = 0)
    (hov : overlap < tileC tile (paddedDim hOld ws) (paddedDim wOld ws)) :
    (upscalePrepare hOld wOld c img ws).channels = c ∧
      infIsOk (inference (paddedDim hOld ws) (paddedDim wOld ws) tile overlap
        ws sf m) = true := by
  refine ⟨rfl, ?_⟩
  rw [inference_eq_ok _ _ _ _ _ _ _ hws hov]
  rfl

/-- Witness for the amended C9: a 4-channel 130 × 130 image with the standard
configuration (window 8, tile 64, overlap 8, scale 4). -/
theorem c9_channel_amended_witness :
    tileC 64 (paddedDim 130 8) (paddedDim 130 8) % 8 = 0 ∧
      8 < tileC 64 (paddedDim 130 8) (paddedDim 130 8) ∧
      ((upscalePrepare 130 130 4 img0 8).channels = 4 ∧
        infIsOk (inference (paddedDim 130 8) (paddedDim 130 8) 64 8 8 4 m0) =
          true) :=
  ⟨by decide, by decide,
    c9_channel_amended 130 130 4 8 64 8 4 img0 m0 (by decide) (by decide)⟩

/-! ### Padding lemmas -/

lemma paddedDim_eq (dim ws : Nat) (hws : 0 < ws) (hle : ws ≤ dim) :
    paddedDim dim ws = (dim / ws + 1) * ws := by
  have hpad := padf_eq dim ws hws
  have hmod : dim % ws < ws := Nat.mod_lt dim hws
  have hlt : dim < (dim / ws + 1) * ws := lt_div_succ_mul dim ws hws
  have h2 : hPadFormula dim ws = (dim / ws + 1) * ws - dim := rfl
  unfold paddedDim
  rw [hpad]
  set P := (dim / ws + 1) * ws with hP
  set R := dim % ws with hR
  have h4 : P - dim = ws - R := h2.symm.trans hpad
  have h5 : dim + (ws - R) = P := by omega
  rw [h5]
  exact Nat.min_eq_right (by omega)

lemma lt_paddedDim (dim ws : Nat) (hws : 0 < ws) (hle : ws ≤ dim) :
    dim < paddedDim dim ws := by
  rw [paddedDim_eq dim ws hws hle]
  exact lt_div_succ_mul dim ws hws

lemma paddedDim_dvd (dim ws : Nat) (hws : 0 < ws) (hle : ws ≤ dim) :
    ws ∣ paddedDim dim ws := by
  rw [paddedDim_eq dim ws hws hle]
  exact dvd_mul_left ws (dim / ws + 1)

lemma paddedDim_least (dim ws d : Nat) (hws : 0 < ws) (hle : ws ≤ dim)
    (hdvd : ws ∣ d) (hgt : dim < d) : paddedDim dim ws ≤ d := by
  rw [paddedDim_eq dim ws hws hle]
  obtain ⟨k, rfl⟩ := hdvd
  have hgt2 : dim < k * ws := by rw [Nat.mul_comm]; exact hgt
  have hk : dim / ws < k := (Nat.div_lt_iff_lt_mul hws).2 hgt2
  calc (dim / ws + 1) * ws ≤ k * ws := Nat.mul_le_mul_right ws (by omega)
    _ = ws * k := Nat.mul_comm k ws

/-- Counterexample to C2: an 8 × 8 image with window size 8 is already
aligned, yet the code pads it to 16 × 16 — not to the smallest multiple of
the window size that is ≥ the original (which is 8). -/
theorem c2_padding_counterexample :
    (upscalePrepare 8 8 3 img0 8).hP = 16 ∧ smallestMultipleGe 8 8 = 8 ∧
      (upscalePrepare 8 8 3 img0 8).hP ≠ smallestMultipleGe 8 8 := by decide

/-- C2 as amended: for images at least one window in each dimension, the
padded height and width are each the smallest multiple of `window_size`
STRICTLY greater than the original (`original + window_size` when already a
multiple), and the added margin is filled by mirror reflection of existing
rows/columns (each margin row equals an in-range source row, never zero-fill). -/
theorem c2_padding_amended (hOld wOld c ws : Nat) (img : Nat → Nat → Nat → ℚ)
    (hws : 0 < ws) (hh : ws ≤ hOld) (hw : ws ≤ wOld) :
    ((upscalePrepare hOld wOld c img ws).hP = (hOld / ws + 1) * ws ∧
      hOld < (upscalePrepare hOld wOld c img ws).hP ∧
      ws ∣ (upscalePrepare hOld wOld c img ws).hP ∧
      ∀ d, ws ∣ d → hOld < d → (upscalePrepare hOld wOld c img ws).hP ≤ d) ∧
    ((upscalePrepare hOld wOld c img ws).wP = (wOld / ws + 1) * ws ∧
      wOld < (upscalePrepare hOld wOld c img ws).wP ∧
      ws ∣ (upscalePrepare hOld wOld c img ws).wP ∧
      ∀ d, ws ∣ d → wOld < d → (upscalePrepare hOld wOld c img ws).wP ≤ d) ∧
    (∀ ch y x, hOld ≤ y → y < (upscalePrepare hOld wOld c img ws).hP →
      2 * hOld - 1 - y < hOld ∧
        (upscalePrepare hOld wOld c img ws).tensor ch y x =
          (upscalePrepare hOld wOld c img ws).tensor ch (2 * hOld - 1 - y) x) ∧
    (∀ ch y x, wOld ≤ x → x < (upscalePrepare hOld wOld c img ws).wP →
      2 * wOld - 1 - x < wOld ∧
        (upscalePrepare hOld wOld c img ws).tensor ch y x =
          (upscalePrepare hOld wOld c img ws).tensor ch y (2 * wOld - 1 - x)) := by
  refine ⟨⟨paddedDim_eq hOld ws hws hh, lt_paddedDim hOld ws hws hh,
      paddedDim_dvd hOld ws hws hh,
      fun d hd hgt => paddedDim_least hOld ws d hws hh hd hgt⟩,
    ⟨paddedDim_eq wOld ws hws hw, lt_paddedDim wOld ws hws hw,
      paddedDim_dvd wOld ws hws hw,
      fun d hd hgt => paddedDim_least wOld ws d hws hw hd hgt⟩, ?_, ?_⟩
  · intro ch y x hy1 hy2
    have hle2 : (upscalePrepare hOld wOld c img ws).hP ≤ 2 * hOld :=
      Nat.min_le_left _ _
    have hy3 : y < 2 * hOld := lt_of_lt_of_le hy2 hle2
    have hb : 2 * hOld - 1 - y < hOld := by omega
    refine ⟨hb, ?_⟩
    show img (reflectIdx hOld y) (reflectIdx wOld x) (c - 1 - ch) / 255 =
      img (reflectIdx hOld (2 * hOld - 1 - y)) (reflectIdx wOld x)
        (c - 1 - ch) / 255
    have h1 : reflectIdx hOld y = 2 * hOld - 1 - y := by
      unfold reflectIdx
      rw [if_neg (by omega)]
    have h2 : reflectIdx hOld (2 * hOld - 1 - y) = 2 * hOld - 1 - y := by
      unfold reflectIdx
      rw [if_pos hb]
    rw [h1, h2]
  · intro ch y x hx1 hx2
    have hle2 : (upscalePrepare hOld wOld c img ws).wP ≤ 2 * wOld :=
      Nat.min_le_left _ _
    have hx3 : x < 2 * wOld := lt_of_lt_of_le hx2 hle2
    have hb : 2 * wOld - 1 - x < wOld := by omega
    refine ⟨hb, ?_⟩
    show img (reflectIdx hOld y) (reflectIdx wOld x) (c - 1 - ch) / 255 =
      img (reflectIdx hOld y) (reflectIdx wOld (2 * wOld - 1 - x))
        (c - 1 - ch) / 255
    have h1 : reflectIdx wOld x = 2 * wOld - 1 - x := by
      unfold reflectIdx
      rw [if_neg (by omega)]
    have h2 : reflectIdx wOld (2 * wOld - 1 - x) = 2 * wOld - 1 - x := by
      unfold reflectIdx
      rw [if_pos hb]
    rw [h1, h2]

/-- Witness for the amended C2 at a 10 × 10 image with window size 8:
the padded height is `(10 / 8 + 1) * 8 = 16`. -/
theorem c2_padding_amended_witness :
    0 < 8 ∧ 8 ≤ 10 ∧ 8 ≤ 10 ∧
      (upscalePrepare 10 10 3 img0 8).hP = (10 / 8 + 1) * 8 :=
  ⟨by decide, by decide, by decide,
    (c2_padding_amended 10 10 3 8 img0 (by decide) (by decide)
        (by decide)).1.1⟩

/-- C5: when the overlap is 0 and the padded dimensions are exact multiples
of the tile size, every pixel is covered by exactly one scheduled tile
(the weight buffer is identically 1) and the finalized output `E / W` equals
the raw model outputs laid out tile by tile with no blending. -/
theorem c5_non_overlap_identity (h w tile ws sf : Nat) (m : Model)
    (ht0 : 0 < tile) (hsf : 0 < sf) (hth : tile ≤ h) (htw : tile ≤ w)
    (hdh : tile ∣ h) (hdw : tile ∣ w) (hws : tile % ws = 0) :
    ∃ r, inference h w tile 0 ws sf m = .ok r ∧
      ∀ y, y < h * sf → ∀ x, x < w * sf →
        r.Wt y x = 1 ∧ ∀ c, r.output c y x = concatTiles m tile sf c y x := by
  have htC : tileC tile h w = tile := Nat.min_eq_left (le_min hth htw)
  have heq := inference_eq_ok h w tile 0 ws sf m
    (by rw [htC]; exact hws) (by rw [htC]; exact ht0)
  rw [htC, Nat.sub_zero] at heq
  obtain ⟨nh, hnh⟩ := hdh
  obtain ⟨nw, hnw⟩ := hdw
  have hnh0 : 0 < nh := by
    rcases Nat.eq_zero_or_pos nh with h0 | h0
    · subst h0
      rw [Nat.mul_zero] at hnh
      omega
    · exact h0
  have hnw0 : 0 < nw := by
    rcases Nat.eq_zero_or_pos nw with h0 | h0
    · subst h0
      rw [Nat.mul_zero] at hnw
      omega
    · exact h0
  have hgh : pyRangePos (h - tile) tile ++ [h - tile] =
      (List.range nh).map (fun k => k * tile) := by
    rw [hnh]
    exact grid_eq tile nh ht0 hnh0
  have hgw : pyRangePos (w - tile) tile ++ [w - tile] =
      (List.range nw).map (fun k => k * tile) := by
    rw [hnw]
    exact grid_eq tile nw ht0 hnw0
  refine ⟨_, heq, ?_⟩
  intro y hy x hx
  have hts : 0 < tile * sf := Nat.mul_pos ht0 hsf
  have hhs : h * sf = nh * (tile * sf) := by
    rw [hnh]
    ring
  have hws2 : w * sf = nw * (tile * sf) := by
    rw [hnw]
    ring
  have hk : y / (tile * sf) < nh :=
    (Nat.div_lt_iff_lt_mul hts).2 (lt_of_lt_of_eq hy hhs)
  have hj : x / (tile * sf) < nw :=
    (Nat.div_lt_iff_lt_mul hts).2 (lt_of_lt_of_eq hx hws2)
  constructor
  · show Wbuf (pyRangePos (h - tile) tile ++ [h - tile])
      (pyRangePos (w - tile) tile ++ [w - tile]) tile sf y x = 1
    rw [hgh, hgw]
    exact Wbuf_grid nh nw tile sf y x ht0 hsf hk hj
  · intro c
    show Ebuf (pyRangePos (h - tile) tile ++ [h - tile])
        (pyRangePos (w - tile) tile ++ [w - tile]) m tile sf c y x /
      Wbuf (pyRangePos (h - tile) tile ++ [h - tile])
        (pyRangePos (w - tile) tile ++ [w - tile]) tile sf y x =
      concatTiles m tile sf c y x
    rw [hgh, hgw, Ebuf_grid nh nw tile sf c y x m ht0 hsf hk hj,
      Wbuf_grid nh nw tile sf y x ht0 hsf hk hj, div_one]
    have hym : y - y / (tile * sf) * tile * sf = y % (tile * sf) := by
      rw [Nat.mul_assoc]
      exact sub_div_mul_eq_mod y (tile * sf)
    have hxm : x - x / (tile * sf) * tile * sf = x % (tile * sf) := by
      rw [Nat.mul_assoc]
      exact sub_div_mul_eq_mod x (tile * sf)
    rw [hym, hxm]
    rfl

/-- Witness for C5 at `h = w = 16, tile = 8, overlap = 0, scale = 1`. -/
theorem c5_non_overlap_identity_witness :
    0 < 8 ∧ 0 < 1 ∧ 8 ≤ 16 ∧ (8 : Nat) ∣ 16 ∧ 8 % 8 = 0 ∧
      (∃ r, inference 16 16 8 0 8 1 m0 = .ok r ∧
        ∀ y, y < 16 * 1 → ∀ x, x < 16 * 1 →
          r.Wt y x = 1 ∧ ∀ c, r.output c y x = concatTiles m0 8 1 c y x) :=
  ⟨by decide, by decide, by decide, by decide, by decide,
    c5_non_overlap_identity 16 16 8 8 1 m0 (by decide) (by decide) (by decide)
      (by decide) (by decide) (by decide) (by decide)⟩
